import Mathlib

/-!
# The scrypt JNI entry point of edge-core-js

Shallow embedding of `android/src/main/cpp/edge-core-jni.c`, the function
`Java_app_edge_reactnative_core_EdgeNative_scrypt`.

* The Java heap is a list of byte-array objects; a reference is the index of
  its object, and `NULL` is `none`.
* Native memory is a function from addresses to bytes; `alloca` yields
  disjoint blocks of it, as long as they fit the stack.
* `crypto_scrypt` (declared in `scrypt/crypto_scrypt.h`) is a parameter of the
  embedding: a function from the values it is called with to its status and
  the bytes it stores into `buf`.
* Every call that the entry point makes is recorded, in order, in a trace.
-/

namespace EdgeCoreJni

/-! ## C and JNI scalar types -/

/-- The type `jbyte`, eight bits. A value stands for its bit pattern, so the
conversion between `jbyte *` and `const uint8_t *` at the call of
`crypto_scrypt` is the identity. -/
abbrev jbyte := Fin 256

/-- The type `jint`, a 32-bit signed integer, carried by an `Int`. -/
abbrev jint := Int

/-- The type `jsize`, an alias of `jint`. -/
abbrev jsize := Int

/-- The type `jbyteArray` as a returned value: `none` is `NULL`, `some k` is
the reference to heap object `k`. -/
abbrev jbyteArray := Option Nat

/-- The range of a `jint`. -/
def IsJint (x : Int) : Prop := -2147483648 ≤ x ∧ x ≤ 2147483647

instance (x : Int) : Decidable (IsJint x) := by
  unfold IsJint
  infer_instance

/-- Conversion of a signed integer to `size_t` (64 bits). -/
def toSizeT (x : Int) : Nat := (x % 2 ^ 64).toNat

/-- Conversion of a signed integer to `uint64_t`, as for argument `N`. -/
def toUint64 (x : Int) : Nat := (x % 2 ^ 64).toNat

/-- Conversion of a signed integer to `uint32_t`, as for arguments `r`, `p`. -/
def toUint32 (x : Int) : Nat := (x % 2 ^ 32).toNat

/-- The value of `sizeof(jbyte)`. -/
def sizeof_jbyte : Nat := 1

/-- The `size_t` product `count * sizeof(jbyte)` that is handed to `alloca`. -/
def byteCount (count : Int) : Nat := (toSizeT count * sizeof_jbyte) % 2 ^ 64

/-! ## Native memory -/

/-- Native memory: the byte at every address. -/
abbrev Memory := Nat → jbyte

/-- The call `alloca(size)` with the stack top at `sp`, on a stack of which
the frame may take `avail` bytes: the address of the block and the stack top
after it. The block is not initialised. A block that does not fit the stack
has no defined behaviour, and the result is `none`. -/
def alloca (avail sp size : Nat) : Option (Nat × Nat) :=
  if sp + size ≤ avail then some (sp, sp + size) else none

/-- The `len` bytes found at address `ptr`. -/
def readBytes (mem : Memory) (ptr len : Nat) : List jbyte :=
  (List.range len).map (fun i => mem (ptr + i))

/-- Memory after `bytes` have been stored from address `ptr` on. -/
def writeBytes (mem : Memory) (ptr : Nat) (bytes : List jbyte) : Memory :=
  fun a => if ptr ≤ a then (bytes[a - ptr]?).getD (mem a) else mem a

/-! ## The JNI environment -/

/-- The part of the runtime that the entry point touches: the byte-array
objects, and whether the runtime is able to construct an array of a given
length (it is not when memory is exhausted). -/
structure JNIEnv where
  heap : List (List jbyte)
  canAllocate : Nat → Bool

/-- The function `GetArrayLength`. The result is `none` when `array` is not a
reference to an object, which the JNI contract excludes. -/
def GetArrayLength (env : JNIEnv) (array : Nat) : Option jsize :=
  (env.heap[array]?).map (fun a => (a.length : Int))

/-- The function `NewByteArray`: a zero-filled array of `length` elements at a
new reference, or `NULL` when the array cannot be constructed. No array is
constructed for a negative length. -/
def NewByteArray (env : JNIEnv) (length : jsize) : JNIEnv × jbyteArray :=
  if 0 ≤ length ∧ env.canAllocate length.toNat = true then
    ({ env with heap := env.heap ++ [List.replicate length.toNat 0] },
      some env.heap.length)
  else
    (env, none)

/-- The function `GetByteArrayRegion`: native memory after the region has been
copied to address `buf`. A region outside the array raises
`ArrayIndexOutOfBoundsException` and copies nothing. -/
def GetByteArrayRegion (env : JNIEnv) (array : Nat) (start len : jsize)
    (mem : Memory) (buf : Nat) : Option Memory :=
  match env.heap[array]? with
  | none => none
  | some a =>
    if 0 ≤ start ∧ 0 ≤ len ∧ start + len ≤ (a.length : Int) then
      some (writeBytes mem buf ((a.drop start.toNat).take len.toNat))
    else
      some mem

/-- The function `SetByteArrayRegion`: the environment after `len` bytes at
address `buf` have been copied into the region. A region outside the array
raises `ArrayIndexOutOfBoundsException` and copies nothing. -/
def SetByteArrayRegion (env : JNIEnv) (array : Nat) (start len : jsize)
    (mem : Memory) (buf : Nat) : Option JNIEnv :=
  match env.heap[array]? with
  | none => none
  | some a =>
    if 0 ≤ start ∧ 0 ≤ len ∧ start + len ≤ (a.length : Int) then
      some { env with
        heap := env.heap.set array
          (a.take start.toNat ++ readBytes mem buf len.toNat
            ++ a.drop (start.toNat + len.toNat)) }
    else
      some env

/-! ## crypto_scrypt -/

/-- The interface of `crypto_scrypt(passwd, passwdlen, salt, saltlen, N, r, p,
buf, buflen)`. The function itself is a parameter of the embedding. Its
arguments are the `passwdlen` bytes at `passwd`, `passwdlen`, the `saltlen`
bytes at `salt`, `saltlen`, `N`, `r`, `p` and `buflen`; its result is the
returned status and the bytes it stores at `buf`. -/
abbrev CryptoScrypt :=
  List jbyte → Nat → List jbyte → Nat → Nat → Nat → Nat → Nat → Int × List jbyte

/-- Memory after a call of `crypto_scrypt` that stores `written` at `buf`.
The callee stays inside the `buflen` bytes it was given. -/
def scryptStore (mem : Memory) (buf buflen : Nat) (written : List jbyte) : Memory :=
  writeBytes mem buf (written.take buflen)

/-! ## The trace of calls -/

/-- One call made by the entry point, with the values it was made with. For
`crypto_scrypt` and `SetByteArrayRegion` the bytes found at the pointer
arguments are recorded. -/
inductive Event where
  | getArrayLength (array : Nat)
  | alloca (size : Nat)
  | newByteArray (length : Int)
  | getByteArrayRegion (array : Nat) (start len : Int)
  | cryptoScrypt (passwd : List jbyte) (passwdlen : Nat) (salt : List jbyte)
      (saltlen : Nat) (N r p : Nat) (buflen : Nat)
  | setByteArrayRegion (array : Nat) (start len : Int) (buf : List jbyte)
  deriving DecidableEq

/-- What a call of the entry point leaves behind: the returned value, the
environment and the calls made. -/
structure Outcome where
  ret : jbyteArray
  env : JNIEnv
  trace : List Event

/-! ## The entry point -/

/-- The calls of lines 16 to 21, up to and with `NewByteArray`. -/
def prologue (data salt : Nat) (dataLength saltLength dklen : Int) : List Event :=
  [Event.getArrayLength data, Event.getArrayLength salt,
   Event.alloca (byteCount dataLength), Event.alloca (byteCount saltLength),
   Event.alloca (byteCount dklen), Event.newByteArray dklen]

/-- The function `Java_app_edge_reactnative_core_EdgeNative_scrypt`. The
arguments `data` and `salt` are references; `stack` is native memory at entry
and `avail` the number of bytes of it that the frame may take, the blocks
being taken from address 0 on. The result is `none` when the call has no
defined behaviour: `data` or `salt` is not a reference to an object, or a
block requested from `alloca` does not fit the stack. -/
def Java_app_edge_reactnative_core_EdgeNative_scrypt
    (crypto_scrypt : CryptoScrypt) (stack : Memory) (avail : Nat) (env : JNIEnv)
    (data salt : Nat) (n r p dklen : jint) : Option Outcome :=
  match GetArrayLength env data with
  | none => none
  | some dataLength =>
  match GetArrayLength env salt with
  | none => none
  | some saltLength =>
  match alloca avail 0 (byteCount dataLength) with
  | none => none
  | some (pData, sp1) =>
  match alloca avail sp1 (byteCount saltLength) with
  | none => none
  | some (pSalt, sp2) =>
  match alloca avail sp2 (byteCount dklen) with
  | none => none
  | some (pOut, _) =>
  let t := prologue data salt dataLength saltLength dklen
  match NewByteArray env dklen with
  | (env1, none) => some ⟨none, env1, t⟩
  | (env1, some out) =>
  match GetByteArrayRegion env1 data 0 dataLength stack pData with
  | none => none
  | some mem1 =>
  match GetByteArrayRegion env1 salt 0 saltLength mem1 pSalt with
  | none => none
  | some mem2 =>
  let passwd := readBytes mem2 pData (toSizeT dataLength)
  let saltBytes := readBytes mem2 pSalt (toSizeT saltLength)
  let call := crypto_scrypt passwd (toSizeT dataLength) saltBytes (toSizeT saltLength)
    (toUint64 n) (toUint32 r) (toUint32 p) (toSizeT dklen)
  let mem3 := scryptStore mem2 pOut (toSizeT dklen) call.2
  let t := t ++ [Event.getByteArrayRegion data 0 dataLength,
    Event.getByteArrayRegion salt 0 saltLength,
    Event.cryptoScrypt passwd (toSizeT dataLength) saltBytes (toSizeT saltLength)
      (toUint64 n) (toUint32 r) (toUint32 p) (toSizeT dklen)]
  if call.1 ≠ 0 then some ⟨none, env1, t⟩
  else
  match SetByteArrayRegion env1 out 0 dklen mem3 pOut with
  | none => none
  | some env2 =>
    some ⟨some out, env2,
      t ++ [Event.setByteArrayRegion out 0 dklen (readBytes mem3 pOut dklen.toNat)]⟩

/-! ## Statement vocabulary -/

/-- The bytes at `pOut` when `crypto_scrypt` has returned: the bytes it
stored, then what the stack held there before. The arrays `pw` and `sl` fix
the address of `pOut`. -/
def outBytes (stack : Memory) (pw sl written : List jbyte) (k : Nat) : List jbyte :=
  written.take k ++ readBytes stack (pw.length + sl.length + written.length) (k - written.length)

/-- The calls made after a successful `NewByteArray`, up to and with
`crypto_scrypt`. -/
def body (data salt : Nat) (pw sl : List jbyte) (N r p buflen : Nat) : List Event :=
  [Event.getByteArrayRegion data 0 pw.length, Event.getByteArrayRegion salt 0 sl.length,
   Event.cryptoScrypt pw pw.length sl sl.length N r p buflen]

/-- The environment after `NewByteArray` has constructed an array of `k`
elements. -/
def withNewArray (env : JNIEnv) (k : Nat) : JNIEnv :=
  { env with heap := env.heap ++ [List.replicate k 0] }

/-- The environment in which the newest array of `withNewArray` holds `bytes`. -/
def withOutput (env : JNIEnv) (bytes : List jbyte) : JNIEnv :=
  { env with heap := env.heap ++ [bytes] }

/-- The array that a returned reference points to, when there is one. -/
def Outcome.returned (o : Outcome) : Option (List jbyte) :=
  o.ret.bind (fun k => o.env.heap[k]?)

/-- Whether the event is a call of `crypto_scrypt`. -/
def Event.isCryptoScrypt : Event → Bool
  | Event.cryptoScrypt _ _ _ _ _ _ _ _ => true
  | _ => false

/-- Whether the event copies bytes out of an array, into an array, or is a
call of `crypto_scrypt`. -/
def Event.movesBytes : Event → Bool
  | Event.getByteArrayRegion _ _ _ => true
  | Event.cryptoScrypt _ _ _ _ _ _ _ _ => true
  | Event.setByteArrayRegion _ _ _ _ => true
  | _ => false

/-- A well-typed call with defined behaviour: `data` and `salt` refer to the
arrays `pw` and `sl`, array lengths are `jsize` values, `n`, `r`, `p`, `dklen`
are `jint` values, and the three blocks requested from `alloca` fit the
`avail` bytes of the stack. -/
structure ValidCall (avail : Nat) (env : JNIEnv) (data salt : Nat) (pw sl : List jbyte)
    (n r p dklen : Int) : Prop where
  data_ref : env.heap[data]? = some pw
  salt_ref : env.heap[salt]? = some sl
  data_len : pw.length ≤ 2147483647
  salt_len : sl.length ≤ 2147483647
  n_jint : IsJint n
  r_jint : IsJint r
  p_jint : IsJint p
  dklen_jint : IsJint dklen
  fits : byteCount pw.length + byteCount sl.length + byteCount dklen ≤ avail

/-- A cost parameter that scrypt admits: a power of two greater than 1. -/
def IsPowerOfTwoAboveOne (N : Nat) : Prop := ∃ k, 0 < k ∧ N = 2 ^ k

/-- The callee rejects every cost parameter that is not a power of two greater
than 1. -/
def RejectsBadCost (cs : CryptoScrypt) : Prop :=
  ∀ passwd passwdlen salt saltlen N r p buflen,
    ¬ IsPowerOfTwoAboveOne N → (cs passwd passwdlen salt saltlen N r p buflen).1 ≠ 0

/-- The callee, when it reports success, has stored all `buflen` bytes of the
result, so that the content of `buf` is a function of the arguments. -/
def FillsBuffer (cs : CryptoScrypt) : Prop :=
  ∀ passwd passwdlen salt saltlen N r p buflen,
    (cs passwd passwdlen salt saltlen N r p buflen).1 = 0 →
      (cs passwd passwdlen salt saltlen N r p buflen).2.length = buflen

/-! ## A ground instance

A small `crypto_scrypt` on which the entry point can be evaluated. It stands
for no particular implementation: the theorems below hold for every
`crypto_scrypt`, and this one only supplies concrete runs. -/

/-- A ground `crypto_scrypt`: status `-1` and nothing stored unless `N` is a
power of two above 1 and `r`, `p` are positive; else status `0` and `buflen`
bytes stored. -/
def groundScrypt : CryptoScrypt :=
  fun passwd passwdlen salt saltlen N r p buflen =>
    if (List.range 64).any (fun k => decide (0 < k ∧ N = 2 ^ k)) = true ∧ 0 < r ∧ 0 < p then
      (0, (List.range buflen).map
        (fun i => Fin.ofNat (passwd.length + passwdlen + 3 * salt.length + saltlen + N + r + p + i)))
    else (-1, [])

/-- Native memory whose bytes are all `0xAA` at entry. -/
def groundStack : Memory := fun _ => 170

/-- A stack of which the frame may take 8 MiB. -/
def groundAvail : Nat := 8388608

/-- An environment with a 3-byte array at reference 0, a 2-byte array at
reference 1 and an empty array at reference 2; arrays of up to 64 bytes can be
constructed. -/
def groundEnv : JNIEnv :=
  { heap := [[1, 2, 3], [9, 8], []], canAllocate := fun k => decide (k ≤ 64) }

/-- Another environment: the arrays of `groundEnv` at other references, one
array more, and no limit on the arrays that can be constructed. -/
def shuffledEnv : JNIEnv :=
  { heap := [[9, 8], [], [1, 2, 3], [7]], canAllocate := fun _ => true }

/-- Native memory whose byte at address `a` is `a` modulo 256. -/
def countingStack : Memory := fun a => Fin.ofNat a

/-- The environment `groundEnv` with its memory exhausted. -/
def fullEnv : JNIEnv :=
  { heap := [[1, 2, 3], [9, 8], []], canAllocate := fun _ => false }

/-! ## Conversions and native memory -/

theorem toSizeT_of_nonneg (x : Int) (h0 : 0 ≤ x) (h1 : x ≤ 2147483647) :
    toSizeT x = x.toNat := by
  unfold toSizeT
  rw [Int.emod_eq_of_lt h0 (by omega)]

theorem byteCount_of_nonneg (x : Int) (h0 : 0 ≤ x) (h1 : x ≤ 2147483647) :
    byteCount x = x.toNat := by
  unfold byteCount sizeof_jbyte
  rw [toSizeT_of_nonneg x h0 h1, Nat.mul_one]
  apply Nat.mod_eq_of_lt
  omega

theorem toUint64_of_nonneg (x : Int) (h0 : 0 ≤ x) (h1 : x ≤ 2147483647) :
    toUint64 x = x.toNat := by
  unfold toUint64
  rw [Int.emod_eq_of_lt h0 (by omega)]

theorem toUint32_of_nonneg (x : Int) (h0 : 0 ≤ x) (h1 : x ≤ 2147483647) :
    toUint32 x = x.toNat := by
  unfold toUint32
  rw [Int.emod_eq_of_lt h0 (by omega)]

theorem readBytes_length (mem : Memory) (ptr len : Nat) :
    (readBytes mem ptr len).length = len := by
  simp [readBytes]

theorem readBytes_zero (mem : Memory) (ptr : Nat) : readBytes mem ptr 0 = [] := by
  simp [readBytes]

theorem readBytes_getElem_opt (mem : Memory) (ptr len i : Nat) :
    (readBytes mem ptr len)[i]? = if i < len then some (mem (ptr + i)) else none := by
  unfold readBytes
  by_cases h : i < len
  · simp [h, List.getElem?_map, List.getElem?_range]
  · simp [h, List.getElem?_map]
    omega

theorem readBytes_writeBytes (mem : Memory) (ptr : Nat) (bytes : List jbyte) (k : Nat) :
    readBytes (writeBytes mem ptr bytes) ptr k
      = bytes.take k ++ readBytes mem (ptr + bytes.length) (k - bytes.length) := by
  apply List.ext_getElem?
  intro i
  rw [readBytes_getElem_opt]
  by_cases hi : i < bytes.length
  · by_cases hk : i < k
    · rw [List.getElem?_append_left (by simp; omega)]
      simp [writeBytes, hk, hi, List.getElem?_take]
    · have hlen : (List.take k bytes).length = k := by
        rw [List.length_take]
        omega
      rw [List.getElem?_append_right (by omega), hlen, readBytes_getElem_opt]
      have h2 : ¬ (i - k < k - bytes.length) := by omega
      simp [hk, h2]
  · rw [List.getElem?_append_right (by simp; omega)]
    have hmin : min k bytes.length = bytes.length ∨ min k bytes.length = k := by omega
    simp only [List.length_take, readBytes_getElem_opt]
    by_cases hk : i < k
    · have h1 : min k bytes.length = bytes.length := by omega
      have h2 : i - bytes.length < k - bytes.length := by omega
      have h3 : ptr + bytes.length + (i - bytes.length) = ptr + i := by omega
      have h4 : bytes[i]? = none := by simp; omega
      simp [h1, h2, h3, hk, writeBytes, h4]
    · have h2 : ¬ (i - min k bytes.length < k - bytes.length) := by omega
      simp [hk, h2]

theorem readBytes_writeBytes_self (mem : Memory) (ptr : Nat) (bytes : List jbyte) :
    readBytes (writeBytes mem ptr bytes) ptr bytes.length = bytes := by
  rw [readBytes_writeBytes]
  simp [readBytes_zero]

theorem readBytes_congr (m1 m2 : Memory) (ptr len : Nat)
    (h : ∀ a, ptr ≤ a → a < ptr + len → m1 a = m2 a) :
    readBytes m1 ptr len = readBytes m2 ptr len := by
  unfold readBytes
  apply List.map_congr_left
  intro i hi
  have := List.mem_range.mp hi
  exact h _ (by omega) (by omega)

theorem writeBytes_below (mem : Memory) (ptr : Nat) (bytes : List jbyte) (a : Nat)
    (h : a < ptr) : writeBytes mem ptr bytes a = mem a := by
  simp [writeBytes]
  intro h2
  omega

theorem writeBytes_above (mem : Memory) (ptr : Nat) (bytes : List jbyte) (a : Nat)
    (h : ptr + bytes.length ≤ a) : writeBytes mem ptr bytes a = mem a := by
  have h4 : bytes[a - ptr]? = none := by simp; omega
  simp [writeBytes, h4]


theorem outBytes_length (stack : Memory) (pw sl written : List jbyte) (k : Nat) :
    (outBytes stack pw sl written k).length = k := by
  simp only [outBytes, List.length_append, List.length_take, readBytes_length]
  omega

theorem outBytes_of_length (stack : Memory) (pw sl written : List jbyte) (k : Nat)
    (h : written.length = k) : outBytes stack pw sl written k = written := by
  simp [outBytes, ← h, readBytes_zero]

theorem GetArrayLength_eq (env : JNIEnv) (array : Nat) (a : List jbyte)
    (h : env.heap[array]? = some a) : GetArrayLength env array = some (a.length : Int) := by
  simp [GetArrayLength, h]

theorem NewByteArray_ok (env : JNIEnv) (length : Int) (h0 : 0 ≤ length)
    (h : env.canAllocate length.toNat = true) :
    NewByteArray env length = (withNewArray env length.toNat, some env.heap.length) := by
  simp [NewByteArray, h0, h, withNewArray]

theorem NewByteArray_fail (env : JNIEnv) (length : Int)
    (h : ¬ (0 ≤ length ∧ env.canAllocate length.toNat = true)) :
    NewByteArray env length = (env, none) := by
  simp only [NewByteArray, if_neg h]

theorem heap_withNewArray_old (env : JNIEnv) (k array : Nat) (a : List jbyte)
    (h : env.heap[array]? = some a) : (withNewArray env k).heap[array]? = some a := by
  have hlt : array < env.heap.length := by
    by_contra hge
    rw [List.getElem?_eq_none (by omega)] at h
    cases h
  simp only [withNewArray]
  rw [List.getElem?_append_left hlt]
  exact h

theorem heap_withNewArray_new (env : JNIEnv) (k : Nat) :
    (withNewArray env k).heap[env.heap.length]? = some (List.replicate k 0) := by
  simp [withNewArray]

theorem GetByteArrayRegion_all (env : JNIEnv) (array : Nat) (a : List jbyte)
    (mem : Memory) (buf : Nat) (h : env.heap[array]? = some a) :
    GetByteArrayRegion env array 0 (a.length : Int) mem buf = some (writeBytes mem buf a) := by
  simp [GetByteArrayRegion, h]

theorem SetByteArrayRegion_all (env : JNIEnv) (array : Nat) (a : List jbyte)
    (len : Int) (mem : Memory) (buf : Nat) (h : env.heap[array]? = some a)
    (h0 : 0 ≤ len) (hlen : a.length = len.toNat) :
    SetByteArrayRegion env array 0 len mem buf
      = some { env with heap := env.heap.set array (readBytes mem buf len.toNat) } := by
  have h1 : len ≤ (a.length : Int) := by omega
  have h2 : List.drop len.toNat a = [] := List.drop_eq_nil_of_le (by omega)
  simp [SetByteArrayRegion, h, h0, h1, h2]

theorem withNewArray_set (env : JNIEnv) (k : Nat) (bytes : List jbyte) :
    ({ withNewArray env k with heap := (withNewArray env k).heap.set env.heap.length bytes } : JNIEnv)
      = withOutput env bytes := by
  simp [withNewArray, withOutput]


/-! ## The three runs of the entry point -/

theorem alloca_fits (avail sp size : Nat) (h : sp + size ≤ avail) :
    alloca avail sp size = some (sp, sp + size) := by
  simp only [alloca, if_pos h]

theorem alloca_overflow (avail sp size : Nat) (h : ¬ sp + size ≤ avail) :
    alloca avail sp size = none := by
  simp only [alloca, if_neg h]

theorem run_newByteArray_fails (cs : CryptoScrypt) (stack : Memory) (avail : Nat) (env : JNIEnv)
    (data salt : Nat) (n r p dklen : Int) (pw sl : List jbyte)
    (hdata : env.heap[data]? = some pw) (hsalt : env.heap[salt]? = some sl)
    (hfits : byteCount pw.length + byteCount sl.length + byteCount dklen ≤ avail)
    (hnew : ¬ (0 ≤ dklen ∧ env.canAllocate dklen.toNat = true)) :
    Java_app_edge_reactnative_core_EdgeNative_scrypt cs stack avail env data salt n r p dklen
      = some ⟨none, env, prologue data salt pw.length sl.length dklen⟩ := by
  simp only [Java_app_edge_reactnative_core_EdgeNative_scrypt,
    GetArrayLength_eq env data pw hdata, GetArrayLength_eq env salt sl hsalt,
    alloca_fits avail 0 (byteCount pw.length) (by omega),
    alloca_fits avail (0 + byteCount pw.length) (byteCount sl.length) (by omega),
    alloca_fits avail (0 + byteCount pw.length + byteCount sl.length) (byteCount dklen)
      (by omega),
    NewByteArray_fail env dklen hnew]

/-- A call in which a block does not fit the stack has no defined behaviour. -/
theorem run_stack_overflow (cs : CryptoScrypt) (stack : Memory) (avail : Nat) (env : JNIEnv)
    (data salt : Nat) (n r p dklen : Int) (pw sl : List jbyte)
    (hdata : env.heap[data]? = some pw) (hsalt : env.heap[salt]? = some sl)
    (hover : ¬ byteCount pw.length + byteCount sl.length + byteCount dklen ≤ avail) :
    Java_app_edge_reactnative_core_EdgeNative_scrypt cs stack avail env data salt n r p dklen
      = none := by
  by_cases h1 : 0 + byteCount pw.length ≤ avail
  · by_cases h2 : 0 + byteCount pw.length + byteCount sl.length ≤ avail
    · simp only [Java_app_edge_reactnative_core_EdgeNative_scrypt,
        GetArrayLength_eq env data pw hdata, GetArrayLength_eq env salt sl hsalt,
        alloca_fits avail 0 _ h1, alloca_fits avail _ _ h2,
        alloca_overflow avail (0 + byteCount pw.length + byteCount sl.length)
          (byteCount dklen) (by omega)]
    · simp only [Java_app_edge_reactnative_core_EdgeNative_scrypt,
        GetArrayLength_eq env data pw hdata, GetArrayLength_eq env salt sl hsalt,
        alloca_fits avail 0 _ h1, alloca_overflow avail _ _ h2]
  · simp only [Java_app_edge_reactnative_core_EdgeNative_scrypt,
      GetArrayLength_eq env data pw hdata, GetArrayLength_eq env salt sl hsalt,
      alloca_overflow avail 0 _ h1]

/-- The block for a negative `dklen` has at least `2 ^ 64 - 2 ^ 31` bytes. -/
theorem byteCount_of_neg (x : Int) (h0 : x < 0) (h1 : -2147483648 ≤ x) :
    18446744071562067968 ≤ byteCount x := by
  unfold byteCount sizeof_jbyte toSizeT
  have h2 : x % 2 ^ 64 = x + 2 ^ 64 := by
    rw [← Int.add_emod_self]
    exact Int.emod_eq_of_lt (by omega) (by omega)
  rw [h2, Nat.mul_one]
  omega

theorem run_mem (stack : Memory) (pw sl : List jbyte) :
    readBytes (writeBytes (writeBytes stack 0 pw) (0 + pw.length) sl) 0 pw.length = pw
    ∧ readBytes (writeBytes (writeBytes stack 0 pw) (0 + pw.length) sl) (0 + pw.length) sl.length
        = sl := by
  constructor
  · rw [readBytes_congr _ (writeBytes stack 0 pw) 0 pw.length
      (fun a _ h => writeBytes_below _ _ _ a (by omega))]
    exact readBytes_writeBytes_self stack 0 pw
  · exact readBytes_writeBytes_self _ _ sl

theorem run_out (stack : Memory) (pw sl written : List jbyte) (k : Nat) :
    readBytes (scryptStore (writeBytes (writeBytes stack 0 pw) (0 + pw.length) sl)
        (0 + pw.length + sl.length) k written) (0 + pw.length + sl.length) k
      = outBytes stack pw sl written k := by
  unfold scryptStore outBytes
  rw [readBytes_writeBytes]
  have e1 : List.take k (List.take k written) = List.take k written := by
    simp [List.take_take]
  rw [e1]
  by_cases hk : written.length ≤ k
  · have e2 : (List.take k written).length = written.length := by
      rw [List.length_take]; omega
    rw [e2]
    congr 1
    have e5 : 0 + pw.length + sl.length + written.length
        = pw.length + sl.length + written.length := by omega
    rw [e5]
    apply readBytes_congr
    intro a h1 h2
    rw [writeBytes_above _ _ _ a (by omega), writeBytes_above _ _ _ a (by omega)]
  · have e3 : k - written.length = 0 := by omega
    have e4 : k - (List.take k written).length = 0 := by
      rw [List.length_take]; omega
    rw [e3, e4, readBytes_zero, readBytes_zero]


theorem byteCount_length (a : List jbyte) (h : a.length ≤ 2147483647) :
    byteCount (a.length : Int) = a.length := by
  rw [byteCount_of_nonneg _ (by omega) (by omega)]
  simp

theorem toSizeT_length (a : List jbyte) (h : a.length ≤ 2147483647) :
    toSizeT (a.length : Int) = a.length := by
  rw [toSizeT_of_nonneg _ (by omega) (by omega)]
  simp

theorem run_newByteArray_ok (cs : CryptoScrypt) (stack : Memory) (avail : Nat) (env : JNIEnv)
    (data salt : Nat) (n r p dklen : Int) (pw sl : List jbyte)
    (hdata : env.heap[data]? = some pw) (hsalt : env.heap[salt]? = some sl)
    (hpw : pw.length ≤ 2147483647) (hsl : sl.length ≤ 2147483647)
    (h0 : 0 ≤ dklen) (h1 : dklen ≤ 2147483647)
    (hfits : byteCount pw.length + byteCount sl.length + byteCount dklen ≤ avail)
    (hnew : env.canAllocate dklen.toNat = true) :
    Java_app_edge_reactnative_core_EdgeNative_scrypt cs stack avail env data salt n r p dklen
      = some (if (cs pw pw.length sl sl.length (toUint64 n) (toUint32 r) (toUint32 p)
                    dklen.toNat).1 ≠ 0 then
          ⟨none, withNewArray env dklen.toNat,
            prologue data salt pw.length sl.length dklen
              ++ body data salt pw sl (toUint64 n) (toUint32 r) (toUint32 p) dklen.toNat⟩
        else
          ⟨some env.heap.length,
            withOutput env (outBytes stack pw sl
              (cs pw pw.length sl sl.length (toUint64 n) (toUint32 r) (toUint32 p)
                dklen.toNat).2 dklen.toNat),
            prologue data salt pw.length sl.length dklen
              ++ body data salt pw sl (toUint64 n) (toUint32 r) (toUint32 p) dklen.toNat
              ++ [Event.setByteArrayRegion env.heap.length 0 dklen
                    (outBytes stack pw sl
                      (cs pw pw.length sl sl.length (toUint64 n) (toUint32 r) (toUint32 p)
                        dklen.toNat).2 dklen.toNat)]⟩) := by
  have hd1 := heap_withNewArray_old env dklen.toNat data pw hdata
  have hs1 := heap_withNewArray_old env dklen.toNat salt sl hsalt
  have hset := fun mem buf => SetByteArrayRegion_all (withNewArray env dklen.toNat)
    env.heap.length (List.replicate dklen.toNat 0) dklen mem buf
    (heap_withNewArray_new env dklen.toNat) h0 (by simp)
  rw [byteCount_length pw hpw, byteCount_length sl hsl, byteCount_of_nonneg dklen h0 h1]
    at hfits
  simp only [Java_app_edge_reactnative_core_EdgeNative_scrypt,
    GetArrayLength_eq env data pw hdata, GetArrayLength_eq env salt sl hsalt,
    NewByteArray_ok env dklen h0 hnew, byteCount_length pw hpw,
    alloca_fits avail 0 pw.length (by omega),
    alloca_fits avail (0 + pw.length) sl.length (by omega),
    alloca_fits avail (0 + pw.length + sl.length) dklen.toNat (by omega),
    byteCount_length sl hsl, toSizeT_length pw hpw, toSizeT_length sl hsl,
    toSizeT_of_nonneg dklen h0 h1, byteCount_of_nonneg dklen h0 h1,
    GetByteArrayRegion_all _ data pw _ _ hd1, GetByteArrayRegion_all _ salt sl _ _ hs1,
    (run_mem stack pw sl).1, (run_mem stack pw sl).2, hset, run_out, withNewArray_set]
  split <;> simp [body]



theorem NewByteArray_snd_eq_none (env : JNIEnv) (length : Int) :
    (NewByteArray env length).2 = none
      ↔ ¬ (0 ≤ length ∧ env.canAllocate length.toNat = true) := by
  unfold NewByteArray
  split <;> simp_all

/-- The three ways a well-typed call can go. -/
theorem run_cases (cs : CryptoScrypt) (stack : Memory) (avail : Nat) (env : JNIEnv)
    (data salt : Nat) (n r p dklen : Int) (pw sl : List jbyte)
    (hv : ValidCall avail env data salt pw sl n r p dklen) :
    ∃ out, Java_app_edge_reactnative_core_EdgeNative_scrypt cs stack avail env data salt n r p dklen
        = some out
      ∧ (((NewByteArray env dklen).2 = none
            ∧ out = ⟨none, env, prologue data salt pw.length sl.length dklen⟩)
        ∨ ((NewByteArray env dklen).2 ≠ none ∧ 0 ≤ dklen
            ∧ (cs pw pw.length sl sl.length (toUint64 n) (toUint32 r) (toUint32 p)
                dklen.toNat).1 ≠ 0
            ∧ out = ⟨none, withNewArray env dklen.toNat,
                prologue data salt pw.length sl.length dklen
                  ++ body data salt pw sl (toUint64 n) (toUint32 r) (toUint32 p) dklen.toNat⟩)
        ∨ ((NewByteArray env dklen).2 ≠ none ∧ 0 ≤ dklen
            ∧ (cs pw pw.length sl sl.length (toUint64 n) (toUint32 r) (toUint32 p)
                dklen.toNat).1 = 0
            ∧ out = ⟨some env.heap.length,
                withOutput env (outBytes stack pw sl
                  (cs pw pw.length sl sl.length (toUint64 n) (toUint32 r) (toUint32 p)
                    dklen.toNat).2 dklen.toNat),
                prologue data salt pw.length sl.length dklen
                  ++ body data salt pw sl (toUint64 n) (toUint32 r) (toUint32 p) dklen.toNat
                  ++ [Event.setByteArrayRegion env.heap.length 0 dklen
                        (outBytes stack pw sl
                          (cs pw pw.length sl sl.length (toUint64 n) (toUint32 r) (toUint32 p)
                            dklen.toNat).2 dklen.toNat)]⟩)) := by
  by_cases hnew : 0 ≤ dklen ∧ env.canAllocate dklen.toNat = true
  · have hne : (NewByteArray env dklen).2 ≠ none := by
      rw [ne_eq, NewByteArray_snd_eq_none]
      exact fun h => h hnew
    have hrun := run_newByteArray_ok cs stack avail env data salt n r p dklen pw sl
      hv.data_ref hv.salt_ref hv.data_len hv.salt_len hnew.1 hv.dklen_jint.2 hv.fits hnew.2
    by_cases hst : (cs pw pw.length sl sl.length (toUint64 n) (toUint32 r) (toUint32 p)
        dklen.toNat).1 = 0
    · simp only [hst, ne_eq, not_true_eq_false, if_false] at hrun
      exact ⟨_, hrun, Or.inr (Or.inr ⟨hne, hnew.1, hst, rfl⟩)⟩
    · simp only [ne_eq, hst, not_false_eq_true, if_true] at hrun
      exact ⟨_, hrun, Or.inr (Or.inl ⟨hne, hnew.1, hst, rfl⟩)⟩
  · exact ⟨_, run_newByteArray_fails cs stack avail env data salt n r p dklen pw sl
      hv.data_ref hv.salt_ref hv.fits hnew,
      Or.inl ⟨(NewByteArray_snd_eq_none env dklen).mpr hnew, rfl⟩⟩

theorem three_not_power_of_two : ¬ IsPowerOfTwoAboveOne (toUint64 3) := by
  have h3 : toUint64 3 = 3 := by decide
  rw [h3]
  rintro ⟨k, hk, h⟩
  have hdvd : 2 ∣ 2 ^ k := dvd_pow_self 2 (by omega)
  omega

theorem groundScrypt_rejectsBadCost : RejectsBadCost groundScrypt := by
  intro passwd passwdlen salt saltlen N r p buflen hbad
  unfold groundScrypt
  split
  · rename_i h
    exfalso
    obtain ⟨k, _, hk⟩ := List.any_eq_true.mp h.1
    exact hbad ⟨k, (of_decide_eq_true hk).1, (of_decide_eq_true hk).2⟩
  · simp

theorem groundScrypt_fillsBuffer : FillsBuffer groundScrypt := by
  intro passwd passwdlen salt saltlen N r p buflen
  unfold groundScrypt
  split <;> simp

theorem validCall_withOutput (avail : Nat) (env : JNIEnv) (data salt : Nat) (pw sl : List jbyte)
    (n r p dklen : Int) (bytes : List jbyte)
    (hv : ValidCall avail env data salt pw sl n r p dklen) :
    ValidCall avail (withOutput env bytes) data salt pw sl n r p dklen := by
  have hold : ∀ (array : Nat) (a : List jbyte), env.heap[array]? = some a →
      (withOutput env bytes).heap[array]? = some a := by
    intro array a h
    have hlt : array < env.heap.length := by
      by_contra hge
      rw [List.getElem?_eq_none (by omega)] at h
      cases h
    simp only [withOutput]
    rw [List.getElem?_append_left hlt]
    exact h
  exact ⟨hold _ _ hv.data_ref, hold _ _ hv.salt_ref, hv.data_len, hv.salt_len,
    hv.n_jint, hv.r_jint, hv.p_jint, hv.dklen_jint, hv.fits⟩

theorem ref_lt_of_getElem (heap : List (List jbyte)) (array : Nat) (a : List jbyte)
    (h : heap[array]? = some a) : array < heap.length := by
  by_contra hge
  rw [List.getElem?_eq_none (by omega)] at h
  cases h

/-- The returned value of a well-typed call and the array it refers to. -/
theorem run_view (cs : CryptoScrypt) (stack : Memory) (avail : Nat) (env : JNIEnv)
    (data salt : Nat) (n r p dklen : Int) (pw sl : List jbyte)
    (hv : ValidCall avail env data salt pw sl n r p dklen) :
    (Java_app_edge_reactnative_core_EdgeNative_scrypt cs stack avail env data salt n r p dklen).map
        (fun o => (o.ret, o.returned))
      = some (if (NewByteArray env dklen).2 = none
            ∨ (cs pw pw.length sl sl.length (toUint64 n) (toUint32 r) (toUint32 p)
                dklen.toNat).1 ≠ 0 then (none, none)
          else (some env.heap.length, some (outBytes stack pw sl
            (cs pw pw.length sl sl.length (toUint64 n) (toUint32 r) (toUint32 p)
              dklen.toNat).2 dklen.toNat))) := by
  obtain ⟨out, hrun, hc⟩ := run_cases cs stack avail env data salt n r p dklen pw sl hv
  rw [hrun]
  rcases hc with ⟨hnone, rfl⟩ | ⟨_, _, hst, rfl⟩ | ⟨hne, _, hst, rfl⟩
  · simp [hnone, Outcome.returned]
  · simp [hst, Outcome.returned]
  · simp [hne, hst, Outcome.returned, withOutput]

/-! ## The claims -/

/-- C1. For every password array, salt array and non-negative `n`, `r`, `p`,
`dklen`: when the output array is created and `crypto_scrypt` reports success,
the one call of `crypto_scrypt` was made with all bytes of the password and
its full length, all bytes of the salt and its full length, `N = n`, `r`, `p`
and output length `dklen`, in that order, and the returned array holds the
bytes of the output buffer as `crypto_scrypt` left it: exactly the bytes it
stored, when it stored `dklen` of them. -/
theorem scrypt_returns_what_crypto_scrypt_wrote (cs : CryptoScrypt) (stack : Memory) (avail : Nat)
    (env : JNIEnv) (data salt : Nat) (n r p dklen : Int) (pw sl : List jbyte)
    (hv : ValidCall avail env data salt pw sl n r p dklen)
    (hn : 0 ≤ n) (hr : 0 ≤ r) (hp : 0 ≤ p) (hdk : 0 ≤ dklen)
    (hnew : (NewByteArray env dklen).2 ≠ none)
    (hok : (cs pw pw.length sl sl.length n.toNat r.toNat p.toNat dklen.toNat).1 = 0) :
    ∃ out, Java_app_edge_reactnative_core_EdgeNative_scrypt cs stack avail env data salt n r p dklen
        = some out
      ∧ out.trace.filter Event.isCryptoScrypt
          = [Event.cryptoScrypt pw pw.length sl sl.length n.toNat r.toNat p.toNat dklen.toNat]
      ∧ out.ret ≠ none
      ∧ out.returned = some (outBytes stack pw sl
          (cs pw pw.length sl sl.length n.toNat r.toNat p.toNat dklen.toNat).2 dklen.toNat)
      ∧ ((cs pw pw.length sl sl.length n.toNat r.toNat p.toNat dklen.toNat).2.length
            = dklen.toNat →
          out.returned
            = some (cs pw pw.length sl sl.length n.toNat r.toNat p.toNat dklen.toNat).2) := by
  have hcan : env.canAllocate dklen.toNat = true := by
    by_contra hc
    exact hnew (by rw [NewByteArray_fail env dklen (fun h => hc h.2)])
  have hrun := run_newByteArray_ok cs stack avail env data salt n r p dklen pw sl
    hv.data_ref hv.salt_ref hv.data_len hv.salt_len hdk hv.dklen_jint.2 hv.fits hcan
  rw [toUint64_of_nonneg n hn hv.n_jint.2, toUint32_of_nonneg r hr hv.r_jint.2,
    toUint32_of_nonneg p hp hv.p_jint.2] at hrun
  simp only [hok, ne_eq, not_true_eq_false, if_false] at hrun
  refine ⟨_, hrun, ?_, ?_, ?_, ?_⟩
  · simp [prologue, body, Event.isCryptoScrypt]
  · simp
  · simp [Outcome.returned, withOutput]
  · intro hlen
    simp [Outcome.returned, withOutput, outBytes_of_length _ _ _ _ _ hlen]

/-- Witness of C1: a 3-byte password, a 2-byte salt, `N = 16`, `r = p = 1`,
`dklen = 4`. -/
theorem scrypt_returns_what_crypto_scrypt_wrote_witness :
    ∃ out, Java_app_edge_reactnative_core_EdgeNative_scrypt groundScrypt groundStack groundAvail
        groundEnv 0 1 16 1 1 4 = some out
      ∧ out.trace.filter Event.isCryptoScrypt
          = [Event.cryptoScrypt [1, 2, 3] 3 [9, 8] 2 16 1 1 4]
      ∧ out.ret ≠ none
      ∧ out.returned = some (outBytes groundStack [1, 2, 3] [9, 8]
          (groundScrypt [1, 2, 3] 3 [9, 8] 2 16 1 1 4).2 4)
      ∧ ((groundScrypt [1, 2, 3] 3 [9, 8] 2 16 1 1 4).2.length = 4 →
          out.returned = some (groundScrypt [1, 2, 3] 3 [9, 8] 2 16 1 1 4).2) :=
  scrypt_returns_what_crypto_scrypt_wrote groundScrypt groundStack groundAvail groundEnv 0 1 16 1 1 4
    [1, 2, 3] [9, 8]
    ⟨by decide, by decide, by decide, by decide, by decide, by decide, by decide, by decide,
      by decide⟩
    (by decide) (by decide) (by decide) (by decide) (by decide) (by decide)


/-- C2. On every success path of the entry point, that is whenever a non-null
array is returned, the length of the returned array equals the requested
`dklen`, for every password, salt, `n`, `r`, `p` and `dklen`. -/
theorem scrypt_returned_length_is_dklen (cs : CryptoScrypt) (stack : Memory) (avail : Nat)
    (env : JNIEnv) (data salt : Nat) (n r p dklen : Int) (pw sl : List jbyte)
    (hv : ValidCall avail env data salt pw sl n r p dklen) :
    ∃ out, Java_app_edge_reactnative_core_EdgeNative_scrypt cs stack avail env data salt n r p dklen
        = some out
      ∧ ∀ ref, out.ret = some ref →
          ∃ bytes, out.env.heap[ref]? = some bytes ∧ (bytes.length : Int) = dklen := by
  obtain ⟨out, hrun, hc⟩ := run_cases cs stack avail env data salt n r p dklen pw sl hv
  refine ⟨out, hrun, ?_⟩
  intro ref href
  rcases hc with ⟨_, rfl⟩ | ⟨_, _, _, rfl⟩ | ⟨_, h0, _, rfl⟩
  · cases href
  · cases href
  · simp only [Option.some.injEq] at href
    subst href
    refine ⟨outBytes stack pw sl (cs pw pw.length sl sl.length (toUint64 n) (toUint32 r)
      (toUint32 p) dklen.toNat).2 dklen.toNat, by simp [withOutput], ?_⟩
    rw [outBytes_length]
    omega

/-- Witness of C2: the call of the witness of C1 returns reference 3, an
array of 4 bytes. -/
theorem scrypt_returned_length_is_dklen_witness :
    ∃ out, Java_app_edge_reactnative_core_EdgeNative_scrypt groundScrypt groundStack groundAvail
        groundEnv 0 1 16 1 1 4 = some out
      ∧ ∀ ref, out.ret = some ref →
          ∃ bytes, out.env.heap[ref]? = some bytes ∧ (bytes.length : Int) = 4 :=
  scrypt_returned_length_is_dklen groundScrypt groundStack groundAvail groundEnv 0 1 16 1 1 4
    [1, 2, 3] [9, 8]
    ⟨by decide, by decide, by decide, by decide, by decide, by decide, by decide, by decide,
      by decide⟩

/-- C3. The entry point returns either a fully valid key or no key: it returns
null if and only if creating the output array fails or `crypto_scrypt` returns
a non-zero status, so that no array is handed to the caller in those cases; in
every other case the returned array holds, in all its `dklen` elements, the
bytes of the output buffer as `crypto_scrypt` left it, which are the derived
bytes when `crypto_scrypt` stored `dklen` of them. -/
theorem scrypt_key_or_null (cs : CryptoScrypt) (stack : Memory) (avail : Nat)
    (env : JNIEnv) (data salt : Nat) (n r p dklen : Int) (pw sl : List jbyte)
    (hv : ValidCall avail env data salt pw sl n r p dklen) :
    ∃ out, Java_app_edge_reactnative_core_EdgeNative_scrypt cs stack avail env data salt n r p dklen
        = some out
      ∧ (out.ret = none ↔
          ((NewByteArray env dklen).2 = none
            ∨ (cs pw pw.length sl sl.length (toUint64 n) (toUint32 r) (toUint32 p)
                dklen.toNat).1 ≠ 0))
      ∧ (out.ret = none → out.returned = none)
      ∧ (out.ret ≠ none →
          out.returned = some (outBytes stack pw sl
              (cs pw pw.length sl sl.length (toUint64 n) (toUint32 r) (toUint32 p)
                dklen.toNat).2 dklen.toNat)
          ∧ (outBytes stack pw sl
              (cs pw pw.length sl sl.length (toUint64 n) (toUint32 r) (toUint32 p)
                dklen.toNat).2 dklen.toNat).length = dklen.toNat
          ∧ ((cs pw pw.length sl sl.length (toUint64 n) (toUint32 r) (toUint32 p)
                dklen.toNat).2.length = dklen.toNat →
              out.returned = some (cs pw pw.length sl sl.length (toUint64 n) (toUint32 r)
                (toUint32 p) dklen.toNat).2)) := by
  obtain ⟨out, hrun, hc⟩ := run_cases cs stack avail env data salt n r p dklen pw sl hv
  refine ⟨out, hrun, ?_⟩
  rcases hc with ⟨hnone, rfl⟩ | ⟨_, _, hst, rfl⟩ | ⟨hne, _, hst, rfl⟩
  · simp [hnone, Outcome.returned]
  · simp [hst, Outcome.returned]
  · refine ⟨?_, ?_, ?_⟩
    · simp [hne, hst]
    · simp
    · intro _
      refine ⟨by simp [Outcome.returned, withOutput], outBytes_length _ _ _ _ _, ?_⟩
      intro hlen
      simp [Outcome.returned, withOutput, outBytes_of_length _ _ _ _ _ hlen]

/-- Witness of C3: the call of the witness of C1. -/
theorem scrypt_key_or_null_witness :
    ∃ out, Java_app_edge_reactnative_core_EdgeNative_scrypt groundScrypt groundStack groundAvail
        groundEnv 0 1 16 1 1 4 = some out
      ∧ (out.ret = none ↔
          ((NewByteArray groundEnv 4).2 = none
            ∨ (groundScrypt [1, 2, 3] 3 [9, 8] 2 (toUint64 16) (toUint32 1) (toUint32 1)
                (4 : Int).toNat).1 ≠ 0))
      ∧ (out.ret = none → out.returned = none)
      ∧ (out.ret ≠ none →
          out.returned = some (outBytes groundStack [1, 2, 3] [9, 8]
              (groundScrypt [1, 2, 3] 3 [9, 8] 2 (toUint64 16) (toUint32 1) (toUint32 1)
                (4 : Int).toNat).2 (4 : Int).toNat)
          ∧ (outBytes groundStack [1, 2, 3] [9, 8]
              (groundScrypt [1, 2, 3] 3 [9, 8] 2 (toUint64 16) (toUint32 1) (toUint32 1)
                (4 : Int).toNat).2 (4 : Int).toNat).length = (4 : Int).toNat
          ∧ ((groundScrypt [1, 2, 3] 3 [9, 8] 2 (toUint64 16) (toUint32 1) (toUint32 1)
                (4 : Int).toNat).2.length = (4 : Int).toNat →
              out.returned = some (groundScrypt [1, 2, 3] 3 [9, 8] 2 (toUint64 16) (toUint32 1)
                (toUint32 1) (4 : Int).toNat).2)) :=
  scrypt_key_or_null groundScrypt groundStack groundAvail groundEnv 0 1 16 1 1 4 [1, 2, 3] [9, 8]
    ⟨by decide, by decide, by decide, by decide, by decide, by decide, by decide, by decide,
      by decide⟩


/-- C4, counterexample. With `dklen = 0`, a 3-byte password, a 2-byte salt,
`N = 16`, `r = p = 1` and a `crypto_scrypt` that reports success, the entry
point returns reference 3, a newly constructed array of length zero: the call
is not rejected. -/
theorem scrypt_zero_dklen_returns_empty_array :
    (Java_app_edge_reactnative_core_EdgeNative_scrypt groundScrypt groundStack groundAvail
        groundEnv 0 1 16 1 1 0).map (fun o => (o.ret, o.returned))
      = some (some 3, some []) := by
  decide

/-- C4, amended. For every password, salt, `n`, `r` and `p`, a call with
`dklen = 0` is not rejected by the entry point itself: it requests an array of
length zero and, when that array is created, calls `crypto_scrypt` with output
length 0; it returns null if and only if `NewByteArray` yields null or
`crypto_scrypt` returns a non-zero status, and in every other case it returns
a newly created array of length zero. -/
theorem scrypt_zero_dklen_passed_on (cs : CryptoScrypt) (stack : Memory) (avail : Nat)
    (env : JNIEnv) (data salt : Nat) (n r p : Int) (pw sl : List jbyte)
    (hv : ValidCall avail env data salt pw sl n r p 0) :
    ∃ out, Java_app_edge_reactnative_core_EdgeNative_scrypt cs stack avail env data salt n r p 0
        = some out
      ∧ Event.newByteArray 0 ∈ out.trace
      ∧ (out.ret = none ↔
          ((NewByteArray env 0).2 = none
            ∨ (cs pw pw.length sl sl.length (toUint64 n) (toUint32 r) (toUint32 p) 0).1 ≠ 0))
      ∧ (out.ret ≠ none → out.returned = some [])
      ∧ ((NewByteArray env 0).2 ≠ none → out.trace.filter Event.isCryptoScrypt
          = [Event.cryptoScrypt pw pw.length sl sl.length (toUint64 n) (toUint32 r)
              (toUint32 p) 0])
      ∧ (∀ ref, out.ret = some ref → env.heap[ref]? = none) := by
  obtain ⟨out, hrun, hc⟩ := run_cases cs stack avail env data salt n r p 0 pw sl hv
  refine ⟨out, hrun, ?_⟩
  simp only [Int.toNat_zero] at hc
  rcases hc with ⟨hnone, rfl⟩ | ⟨hne, _, hst, rfl⟩ | ⟨hne, _, hst, rfl⟩
  · simp [hnone, prologue]
  · simp [hst, prologue, body, Event.isCryptoScrypt]
  · refine ⟨by simp [prologue], by simp [hne, hst], ?_, ?_, ?_⟩
    · intro _
      have hlen := outBytes_length stack pw sl
        (cs pw pw.length sl sl.length (toUint64 n) (toUint32 r) (toUint32 p) 0).2 0
      simp [Outcome.returned, withOutput, List.length_eq_zero.mp hlen]
    · intro _
      simp [prologue, body, Event.isCryptoScrypt]
    · intro ref href
      simp only [Option.some.injEq] at href
      subst href
      simp

/-- Witness of the amended C4: the call of the counterexample. -/
theorem scrypt_zero_dklen_passed_on_witness :
    ∃ out, Java_app_edge_reactnative_core_EdgeNative_scrypt groundScrypt groundStack groundAvail
        groundEnv 0 1 16 1 1 0 = some out
      ∧ Event.newByteArray 0 ∈ out.trace
      ∧ (out.ret = none ↔
          ((NewByteArray groundEnv 0).2 = none
            ∨ (groundScrypt [1, 2, 3] 3 [9, 8] 2 (toUint64 16) (toUint32 1) (toUint32 1) 0).1
                ≠ 0))
      ∧ (out.ret ≠ none → out.returned = some [])
      ∧ ((NewByteArray groundEnv 0).2 ≠ none → out.trace.filter Event.isCryptoScrypt
          = [Event.cryptoScrypt [1, 2, 3] 3 [9, 8] 2 (toUint64 16) (toUint32 1)
              (toUint32 1) 0])
      ∧ (∀ ref, out.ret = some ref → groundEnv.heap[ref]? = none) :=
  scrypt_zero_dklen_passed_on groundScrypt groundStack groundAvail groundEnv 0 1 16 1 1 [1, 2, 3] [9, 8]
    ⟨by decide, by decide, by decide, by decide, by decide, by decide, by decide, by decide,
      by decide⟩

/-- C5, counterexample. With `N = 3` and `dklen = 4` the entry point returns
null, and by then it has requested the 4-byte working buffer and the 4-byte
output array: the first six calls it made end with `alloca(4)` and
`NewByteArray(4)`, and the heap holds one array more than before. -/
theorem scrypt_bad_cost_buffers_requested :
    (Java_app_edge_reactnative_core_EdgeNative_scrypt groundScrypt groundStack groundAvail
        groundEnv 0 1 3 1 1 4).map (fun o => (o.ret, o.trace.take 6, o.env.heap.length))
      = some (none,
          [Event.getArrayLength 0, Event.getArrayLength 1, Event.alloca 3, Event.alloca 2,
           Event.alloca 4, Event.newByteArray 4],
          groundEnv.heap.length + 1) := by
  decide

/-- C5, amended. For every call whose cost parameter `N` is not a power of two
greater than 1, given that `crypto_scrypt` rejects such an `N`, the entry
point returns a failure, yet only after the buffers sized from the call's
parameters have been requested: its first calls are the three `alloca`, the
last of them for the `dklen`-sized working buffer, and `NewByteArray(dklen)`. -/
theorem scrypt_bad_cost_fails_after_requests (cs : CryptoScrypt) (stack : Memory) (avail : Nat)
    (env : JNIEnv) (data salt : Nat) (n r p dklen : Int) (pw sl : List jbyte)
    (hv : ValidCall avail env data salt pw sl n r p dklen)
    (hrej : RejectsBadCost cs)
    (hbad : ¬ IsPowerOfTwoAboveOne (toUint64 n)) :
    ∃ out, Java_app_edge_reactnative_core_EdgeNative_scrypt cs stack avail env data salt n r p dklen
        = some out
      ∧ out.ret = none
      ∧ out.trace.take 6
          = [Event.getArrayLength data, Event.getArrayLength salt,
             Event.alloca (byteCount pw.length), Event.alloca (byteCount sl.length),
             Event.alloca (byteCount dklen), Event.newByteArray dklen] := by
  obtain ⟨out, hrun, hc⟩ := run_cases cs stack avail env data salt n r p dklen pw sl hv
  refine ⟨out, hrun, ?_⟩
  rcases hc with ⟨_, rfl⟩ | ⟨_, _, _, rfl⟩ | ⟨_, _, hst, rfl⟩
  · simp [prologue]
  · simp [prologue]
  · exact absurd hst (hrej _ _ _ _ _ _ _ _ hbad)

/-- Witness of the amended C5: the call of the counterexample. -/
theorem scrypt_bad_cost_fails_after_requests_witness :
    ∃ out, Java_app_edge_reactnative_core_EdgeNative_scrypt groundScrypt groundStack groundAvail
        groundEnv 0 1 3 1 1 4 = some out
      ∧ out.ret = none
      ∧ out.trace.take 6
          = [Event.getArrayLength 0, Event.getArrayLength 1,
             Event.alloca (byteCount ([1, 2, 3] : List jbyte).length),
             Event.alloca (byteCount ([9, 8] : List jbyte).length),
             Event.alloca (byteCount 4), Event.newByteArray 4] :=
  scrypt_bad_cost_fails_after_requests groundScrypt groundStack groundAvail groundEnv 0 1 3 1 1 4
    [1, 2, 3] [9, 8]
    ⟨by decide, by decide, by decide, by decide, by decide, by decide, by decide, by decide,
      by decide⟩
    groundScrypt_rejectsBadCost three_not_power_of_two

/-- C6, counterexample. One call fails because `NewByteArray` yields null,
another because `crypto_scrypt` returns a non-zero status for `N = 3`; both
return the same value, null. -/
theorem scrypt_two_failures_one_value :
    (NewByteArray fullEnv 4).2 = none
      ∧ (NewByteArray groundEnv 4).2 ≠ none
      ∧ (groundScrypt [1, 2, 3] 3 [9, 8] 2 3 1 1 4).1 ≠ 0
      ∧ (Java_app_edge_reactnative_core_EdgeNative_scrypt groundScrypt groundStack groundAvail
          fullEnv 0 1 16 1 1 4).map Outcome.ret = some none
      ∧ (Java_app_edge_reactnative_core_EdgeNative_scrypt groundScrypt groundStack groundAvail
          groundEnv 0 1 3 1 1 4).map Outcome.ret = some none := by
  decide

/-- C6, amended. The failure result of the entry point is not typed: a call in
which the output array cannot be constructed and a call in which
`crypto_scrypt` returns a non-zero status both return null, so the returned
value is the same for the two causes. -/
theorem scrypt_failure_is_null (cs : CryptoScrypt)
    (stack1 stack2 : Memory) (avail1 avail2 : Nat) (env1 env2 : JNIEnv) (data1 salt1 data2 salt2 : Nat)
    (n1 r1 p1 dklen1 n2 r2 p2 dklen2 : Int) (pw1 sl1 pw2 sl2 : List jbyte)
    (hv1 : ValidCall avail1 env1 data1 salt1 pw1 sl1 n1 r1 p1 dklen1)
    (hv2 : ValidCall avail2 env2 data2 salt2 pw2 sl2 n2 r2 p2 dklen2)
    (hfail1 : (NewByteArray env1 dklen1).2 = none)
    (hnew2 : (NewByteArray env2 dklen2).2 ≠ none)
    (hst2 : (cs pw2 pw2.length sl2 sl2.length (toUint64 n2) (toUint32 r2) (toUint32 p2)
      dklen2.toNat).1 ≠ 0) :
    ∃ o1 o2,
      Java_app_edge_reactnative_core_EdgeNative_scrypt cs stack1 avail1 env1 data1 salt1 n1 r1 p1 dklen1
        = some o1
      ∧ Java_app_edge_reactnative_core_EdgeNative_scrypt cs stack2 avail2 env2 data2 salt2 n2 r2 p2
          dklen2 = some o2
      ∧ o1.ret = none ∧ o2.ret = none ∧ o1.ret = o2.ret := by
  obtain ⟨o1, hrun1, hc1⟩ := run_cases cs stack1 avail1 env1 data1 salt1 n1 r1 p1 dklen1 pw1 sl1 hv1
  obtain ⟨o2, hrun2, hc2⟩ := run_cases cs stack2 avail2 env2 data2 salt2 n2 r2 p2 dklen2 pw2 sl2 hv2
  have h1 : o1.ret = none := by
    rcases hc1 with ⟨_, rfl⟩ | ⟨hne, _⟩ | ⟨hne, _⟩
    · rfl
    · exact absurd hfail1 hne
    · exact absurd hfail1 hne
  have h2 : o2.ret = none := by
    rcases hc2 with ⟨hnone, _⟩ | ⟨_, _, _, rfl⟩ | ⟨_, _, hst, _⟩
    · exact absurd hnone hnew2
    · rfl
    · exact absurd hst hst2
  exact ⟨o1, o2, hrun1, hrun2, h1, h2, by rw [h1, h2]⟩

/-- Witness of the amended C6: the two calls of the counterexample. -/
theorem scrypt_failure_is_null_witness :
    ∃ o1 o2,
      Java_app_edge_reactnative_core_EdgeNative_scrypt groundScrypt groundStack groundAvail fullEnv
        0 1 16 1 1 4 = some o1
      ∧ Java_app_edge_reactnative_core_EdgeNative_scrypt groundScrypt groundStack groundAvail groundEnv
          0 1 3 1 1 4 = some o2
      ∧ o1.ret = none ∧ o2.ret = none ∧ o1.ret = o2.ret :=
  scrypt_failure_is_null groundScrypt groundStack groundStack groundAvail groundAvail fullEnv
    groundEnv 0 1 0 1
    16 1 1 4 3 1 1 4 [1, 2, 3] [9, 8] [1, 2, 3] [9, 8]
    ⟨by decide, by decide, by decide, by decide, by decide, by decide, by decide, by decide,
      by decide⟩
    ⟨by decide, by decide, by decide, by decide, by decide, by decide, by decide, by decide,
      by decide⟩
    (by decide) (by decide) (by decide)


/-- C7. Determinism: two calls with the same password bytes, salt bytes, `n`,
`r`, `p` and `dklen`, in each of which the output array is created, yield the
same outcome, both null or both an array with identical bytes, whatever the
environments, the references and the uninitialised stacks are; this given that
the content of the output buffer is a function of the arguments of
`crypto_scrypt`, which stores all `dklen` bytes when it reports success. -/
theorem scrypt_deterministic (cs : CryptoScrypt)
    (stack1 stack2 : Memory) (avail1 avail2 : Nat) (env1 env2 : JNIEnv) (data1 salt1 data2 salt2 : Nat)
    (n r p dklen : Int) (pw sl : List jbyte)
    (hv1 : ValidCall avail1 env1 data1 salt1 pw sl n r p dklen)
    (hv2 : ValidCall avail2 env2 data2 salt2 pw sl n r p dklen)
    (hfill : FillsBuffer cs)
    (hnew1 : (NewByteArray env1 dklen).2 ≠ none)
    (hnew2 : (NewByteArray env2 dklen).2 ≠ none) :
    ∃ o1 o2,
      Java_app_edge_reactnative_core_EdgeNative_scrypt cs stack1 avail1 env1 data1 salt1 n r p dklen
        = some o1
      ∧ Java_app_edge_reactnative_core_EdgeNative_scrypt cs stack2 avail2 env2 data2 salt2 n r p dklen
        = some o2
      ∧ (o1.ret = none ↔ o2.ret = none)
      ∧ o1.returned = o2.returned := by
  obtain ⟨o1, hrun1, hc1⟩ := run_cases cs stack1 avail1 env1 data1 salt1 n r p dklen pw sl hv1
  obtain ⟨o2, hrun2, hc2⟩ := run_cases cs stack2 avail2 env2 data2 salt2 n r p dklen pw sl hv2
  refine ⟨o1, o2, hrun1, hrun2, ?_⟩
  rcases hc1 with ⟨hnone1, _⟩ | ⟨_, _, hst1, rfl⟩ | ⟨_, _, hst1, rfl⟩
  · exact absurd hnone1 hnew1
  · rcases hc2 with ⟨hnone2, _⟩ | ⟨_, _, _, rfl⟩ | ⟨_, _, hst2, _⟩
    · exact absurd hnone2 hnew2
    · simp [Outcome.returned]
    · exact absurd hst2 hst1
  · rcases hc2 with ⟨hnone2, _⟩ | ⟨_, _, hst2, _⟩ | ⟨_, _, _, rfl⟩
    · exact absurd hnone2 hnew2
    · exact absurd hst1 hst2
    · have hlen := hfill _ _ _ _ _ _ _ _ hst1
      simp [Outcome.returned, withOutput, outBytes_of_length _ _ _ _ _ hlen]

/-- Witness of C7: the same password, salt and parameters in two environments,
at different references and over different stacks. -/
theorem scrypt_deterministic_witness :
    ∃ o1 o2,
      Java_app_edge_reactnative_core_EdgeNative_scrypt groundScrypt groundStack groundAvail groundEnv
        0 1 16 1 1 4 = some o1
      ∧ Java_app_edge_reactnative_core_EdgeNative_scrypt groundScrypt countingStack 4096 shuffledEnv
        2 0 16 1 1 4 = some o2
      ∧ (o1.ret = none ↔ o2.ret = none)
      ∧ o1.returned = o2.returned :=
  scrypt_deterministic groundScrypt groundStack countingStack groundAvail 4096 groundEnv
    shuffledEnv 0 1 2 0
    16 1 1 4 [1, 2, 3] [9, 8]
    ⟨by decide, by decide, by decide, by decide, by decide, by decide, by decide, by decide,
      by decide⟩
    ⟨by decide, by decide, by decide, by decide, by decide, by decide, by decide, by decide,
      by decide⟩
    groundScrypt_fillsBuffer (by decide) (by decide)

/-- C8. A call leaves the contents, and so the lengths, of the password and
salt arrays unchanged on every path; the array it returns on success is a
newly created one, at a reference that referred to nothing before the call and
differs from both the password and the salt reference; and overwriting the
returned array afterwards does not change what a later call with the same
inputs returns. -/
theorem scrypt_frame (cs : CryptoScrypt) (stack : Memory) (avail : Nat)
    (env : JNIEnv) (data salt : Nat) (n r p dklen : Int) (pw sl : List jbyte)
    (hv : ValidCall avail env data salt pw sl n r p dklen) :
    ∃ out, Java_app_edge_reactnative_core_EdgeNative_scrypt cs stack avail env data salt n r p dklen
        = some out
      ∧ out.env.heap[data]? = some pw
      ∧ out.env.heap[salt]? = some sl
      ∧ ∀ ref, out.ret = some ref →
          ref ≠ data ∧ ref ≠ salt ∧ env.heap[ref]? = none
          ∧ ∀ (junk : List jbyte) (stack2 : Memory) (avail2 : Nat),
              (Java_app_edge_reactnative_core_EdgeNative_scrypt cs stack2 avail2
                  { out.env with heap := out.env.heap.set ref junk } data salt n r p dklen).map
                (fun o => (o.ret, o.returned))
              = (Java_app_edge_reactnative_core_EdgeNative_scrypt cs stack2 avail2
                  out.env data salt n r p dklen).map (fun o => (o.ret, o.returned)) := by
  obtain ⟨out, hrun, hc⟩ := run_cases cs stack avail env data salt n r p dklen pw sl hv
  refine ⟨out, hrun, ?_⟩
  have hd := ref_lt_of_getElem _ _ _ hv.data_ref
  have hs := ref_lt_of_getElem _ _ _ hv.salt_ref
  rcases hc with ⟨_, rfl⟩ | ⟨_, _, _, rfl⟩ | ⟨_, _, _, rfl⟩
  · exact ⟨hv.data_ref, hv.salt_ref, fun ref href => by cases href⟩
  · exact ⟨heap_withNewArray_old _ _ _ _ hv.data_ref,
      heap_withNewArray_old _ _ _ _ hv.salt_ref, fun ref href => by cases href⟩
  · refine ⟨(validCall_withOutput _ _ _ _ _ _ _ _ _ _ _ hv).data_ref,
      (validCall_withOutput _ _ _ _ _ _ _ _ _ _ _ hv).salt_ref, ?_⟩
    intro ref href
    simp only [Option.some.injEq] at href
    subst href
    refine ⟨by omega, by omega, by simp, ?_⟩
    intro junk stack2 avail2
    have hset : ({ withOutput env (outBytes stack pw sl
          (cs pw pw.length sl sl.length (toUint64 n) (toUint32 r) (toUint32 p)
            dklen.toNat).2 dklen.toNat) with
        heap := (withOutput env (outBytes stack pw sl
          (cs pw pw.length sl sl.length (toUint64 n) (toUint32 r) (toUint32 p)
            dklen.toNat).2 dklen.toNat)).heap.set env.heap.length junk } : JNIEnv)
        = withOutput env junk := by
      simp [withOutput]
    simp only [hset]
    have hv1 := validCall_withOutput avail env data salt pw sl n r p dklen junk hv
    have hv2 := validCall_withOutput avail env data salt pw sl n r p dklen
      (outBytes stack pw sl (cs pw pw.length sl sl.length (toUint64 n) (toUint32 r)
        (toUint32 p) dklen.toNat).2 dklen.toNat) hv
    by_cases hfits2 : byteCount pw.length + byteCount sl.length + byteCount dklen ≤ avail2
    · rw [run_view cs stack2 avail2 _ data salt n r p dklen pw sl
          ⟨hv1.data_ref, hv1.salt_ref, hv.data_len, hv.salt_len, hv.n_jint, hv.r_jint,
            hv.p_jint, hv.dklen_jint, hfits2⟩,
        run_view cs stack2 avail2 _ data salt n r p dklen pw sl
          ⟨hv2.data_ref, hv2.salt_ref, hv.data_len, hv.salt_len, hv.n_jint, hv.r_jint,
            hv.p_jint, hv.dklen_jint, hfits2⟩]
      simp only [NewByteArray_snd_eq_none, withOutput, List.length_append,
        List.length_singleton]
    · rw [run_stack_overflow cs stack2 avail2 _ data salt n r p dklen pw sl
          hv1.data_ref hv1.salt_ref hfits2,
        run_stack_overflow cs stack2 avail2 _ data salt n r p dklen pw sl
          hv2.data_ref hv2.salt_ref hfits2]

/-- Witness of C8: the call of the witness of C1. -/
theorem scrypt_frame_witness :
    ∃ out, Java_app_edge_reactnative_core_EdgeNative_scrypt groundScrypt groundStack groundAvail
        groundEnv 0 1 16 1 1 4 = some out
      ∧ out.env.heap[0]? = some [1, 2, 3]
      ∧ out.env.heap[1]? = some [9, 8]
      ∧ ∀ ref, out.ret = some ref →
          ref ≠ 0 ∧ ref ≠ 1 ∧ groundEnv.heap[ref]? = none
          ∧ ∀ (junk : List jbyte) (stack2 : Memory) (avail2 : Nat),
              (Java_app_edge_reactnative_core_EdgeNative_scrypt groundScrypt stack2 avail2
                  { out.env with heap := out.env.heap.set ref junk } 0 1 16 1 1 4).map
                (fun o => (o.ret, o.returned))
              = (Java_app_edge_reactnative_core_EdgeNative_scrypt groundScrypt stack2 avail2
                  out.env 0 1 16 1 1 4).map (fun o => (o.ret, o.returned)) :=
  scrypt_frame groundScrypt groundStack groundAvail groundEnv 0 1 16 1 1 4 [1, 2, 3] [9, 8]
    ⟨by decide, by decide, by decide, by decide, by decide, by decide, by decide, by decide,
      by decide⟩


/-- C9. A password of length 0 and a salt of length 0 are permitted: for every
`n`, `r`, `p` and positive `dklen`, a call with an empty password or an empty
salt, in which the output array is created, reaches `crypto_scrypt`, passing
no bytes and length 0 for each empty input; the entry point returns null only
when `crypto_scrypt` returns a non-zero status, and when `crypto_scrypt`
succeeds it returns an array of `dklen` bytes, the bytes of the output
buffer. -/
theorem scrypt_empty_inputs_permitted (cs : CryptoScrypt) (stack : Memory) (avail : Nat)
    (env : JNIEnv) (data salt : Nat) (n r p dklen : Int) (pw sl : List jbyte)
    (hv : ValidCall avail env data salt pw sl n r p dklen)
    (hempty : pw = [] ∨ sl = [])
    (hdk : 0 < dklen)
    (hnew : (NewByteArray env dklen).2 ≠ none) :
    ∃ out, Java_app_edge_reactnative_core_EdgeNative_scrypt cs stack avail env data salt n r p dklen
        = some out
      ∧ (pw = [] → out.trace.filter Event.isCryptoScrypt
          = [Event.cryptoScrypt [] 0 sl sl.length (toUint64 n) (toUint32 r) (toUint32 p)
              dklen.toNat])
      ∧ (sl = [] → out.trace.filter Event.isCryptoScrypt
          = [Event.cryptoScrypt pw pw.length [] 0 (toUint64 n) (toUint32 r) (toUint32 p)
              dklen.toNat])
      ∧ (out.ret = none ↔
          (cs pw pw.length sl sl.length (toUint64 n) (toUint32 r) (toUint32 p)
            dklen.toNat).1 ≠ 0)
      ∧ ((cs pw pw.length sl sl.length (toUint64 n) (toUint32 r) (toUint32 p)
            dklen.toNat).1 = 0 →
          ∃ bytes, out.returned = some bytes ∧ (bytes.length : Int) = dklen
            ∧ bytes = outBytes stack pw sl
                (cs pw pw.length sl sl.length (toUint64 n) (toUint32 r) (toUint32 p)
                  dklen.toNat).2 dklen.toNat) := by
  obtain ⟨out, hrun, hc⟩ := run_cases cs stack avail env data salt n r p dklen pw sl hv
  refine ⟨out, hrun, ?_⟩
  rcases hc with ⟨hnone, _⟩ | ⟨_, _, hst, rfl⟩ | ⟨_, _, hst, rfl⟩
  · exact absurd hnone hnew
  · refine ⟨?_, ?_, by simp [hst], fun h => absurd h hst⟩
    · intro h
      subst h
      simp [prologue, body, Event.isCryptoScrypt]
    · intro h
      subst h
      simp [prologue, body, Event.isCryptoScrypt]
  · refine ⟨?_, ?_, by simp [hst], ?_⟩
    · intro h
      subst h
      simp [prologue, body, Event.isCryptoScrypt]
    · intro h
      subst h
      simp [prologue, body, Event.isCryptoScrypt]
    · intro _
      refine ⟨_, by simp [Outcome.returned, withOutput], ?_, rfl⟩
      rw [outBytes_length]
      omega

/-- Witness of C9: an empty password and an empty salt, `dklen = 5`. -/
theorem scrypt_empty_inputs_permitted_witness :
    ∃ out, Java_app_edge_reactnative_core_EdgeNative_scrypt groundScrypt groundStack groundAvail
        groundEnv 2 2 16 1 1 5 = some out
      ∧ (([] : List jbyte) = [] → out.trace.filter Event.isCryptoScrypt
          = [Event.cryptoScrypt [] 0 [] ([] : List jbyte).length (toUint64 16) (toUint32 1)
              (toUint32 1) (5 : Int).toNat])
      ∧ (([] : List jbyte) = [] → out.trace.filter Event.isCryptoScrypt
          = [Event.cryptoScrypt [] ([] : List jbyte).length [] 0 (toUint64 16) (toUint32 1)
              (toUint32 1) (5 : Int).toNat])
      ∧ (out.ret = none ↔
          (groundScrypt [] ([] : List jbyte).length [] ([] : List jbyte).length (toUint64 16)
            (toUint32 1) (toUint32 1) (5 : Int).toNat).1 ≠ 0)
      ∧ ((groundScrypt [] ([] : List jbyte).length [] ([] : List jbyte).length (toUint64 16)
            (toUint32 1) (toUint32 1) (5 : Int).toNat).1 = 0 →
          ∃ bytes, out.returned = some bytes ∧ (bytes.length : Int) = 5
            ∧ bytes = outBytes groundStack [] []
                (groundScrypt [] ([] : List jbyte).length [] ([] : List jbyte).length
                  (toUint64 16) (toUint32 1) (toUint32 1) (5 : Int).toNat).2 (5 : Int).toNat) :=
  scrypt_empty_inputs_permitted groundScrypt groundStack groundAvail groundEnv 2 2 16 1 1 5 [] []
    ⟨by decide, by decide, by decide, by decide, by decide, by decide, by decide, by decide,
      by decide⟩
    (Or.inl rfl) (by decide) (by decide)

/-- C10, counterexample. With `dklen = -256` line 20 asks `alloca` for
`2 ^ 64 - 256` bytes, which no stack holds: of an 8 MiB stack the three blocks
would take more than is there, and the call has no defined behaviour. It does
not return null, and `NewByteArray` is not reached. -/
theorem scrypt_negative_dklen_overruns_stack :
    byteCount (-256) = 18446744073709551360
      ∧ ¬ (byteCount 3 + byteCount 2 + byteCount (-256) ≤ groundAvail)
      ∧ (Java_app_edge_reactnative_core_EdgeNative_scrypt groundScrypt groundStack groundAvail
          groundEnv 0 1 16 1 1 (-256)).map Outcome.ret = none := by
  decide

/-- C10, amended. In every call whose three stack blocks fit the stack, the
output array is requested before any byte of an input is read: the first calls
of the entry point are the two `GetArrayLength`, the three `alloca` and
`NewByteArray`, none of which copies a byte. Whenever `NewByteArray` then
yields null, the entry point returns null with nothing but those six calls
made: no byte copied out of the password or salt array, no call of
`crypto_scrypt`, no array written or created. On a stack of fewer than
`2 ^ 64 - 2 ^ 31` bytes such a call has a non-negative `dklen`. -/
theorem scrypt_null_before_any_copy (cs : CryptoScrypt) (stack : Memory) (avail : Nat)
    (env : JNIEnv) (data salt : Nat) (n r p dklen : Int) (pw sl : List jbyte)
    (hv : ValidCall avail env data salt pw sl n r p dklen) :
    ∃ out, Java_app_edge_reactnative_core_EdgeNative_scrypt cs stack avail env data salt n r p dklen
        = some out
      ∧ out.trace.take 6
          = [Event.getArrayLength data, Event.getArrayLength salt,
             Event.alloca (byteCount pw.length), Event.alloca (byteCount sl.length),
             Event.alloca (byteCount dklen), Event.newByteArray dklen]
      ∧ (∀ e ∈ out.trace.take 6, e.movesBytes = false)
      ∧ ((NewByteArray env dklen).2 = none →
          out.ret = none ∧ out.env = env
          ∧ out.trace
              = [Event.getArrayLength data, Event.getArrayLength salt,
                 Event.alloca (byteCount pw.length), Event.alloca (byteCount sl.length),
                 Event.alloca (byteCount dklen), Event.newByteArray dklen])
      ∧ (avail < 18446744071562067968 → 0 ≤ dklen) := by
  obtain ⟨out, hrun, hc⟩ := run_cases cs stack avail env data salt n r p dklen pw sl hv
  have htake : out.trace.take 6
      = [Event.getArrayLength data, Event.getArrayLength salt,
         Event.alloca (byteCount pw.length), Event.alloca (byteCount sl.length),
         Event.alloca (byteCount dklen), Event.newByteArray dklen] := by
    rcases hc with ⟨_, rfl⟩ | ⟨_, _, _, rfl⟩ | ⟨_, _, _, rfl⟩ <;> simp [prologue]
  refine ⟨out, hrun, htake, ?_, ?_, ?_⟩
  · intro e he
    rw [htake] at he
    simp only [List.mem_cons, List.mem_singleton, List.not_mem_nil, or_false] at he
    rcases he with rfl | rfl | rfl | rfl | rfl | rfl <;> rfl
  · intro hnone
    rcases hc with ⟨_, rfl⟩ | ⟨hne, _⟩ | ⟨hne, _⟩
    · exact ⟨rfl, rfl, rfl⟩
    · exact absurd hnone hne
    · exact absurd hnone hne
  · intro hsmall
    by_contra hneg
    have hbig := byteCount_of_neg dklen (by omega) hv.dklen_jint.1
    have hfits := hv.fits
    omega

/-- Witness of the amended C10: a call with `dklen = 4` in an environment whose
memory is exhausted. -/
theorem scrypt_null_before_any_copy_witness :
    ∃ out, Java_app_edge_reactnative_core_EdgeNative_scrypt groundScrypt groundStack groundAvail
        fullEnv 0 1 16 1 1 4 = some out
      ∧ out.trace.take 6
          = [Event.getArrayLength 0, Event.getArrayLength 1,
             Event.alloca (byteCount ([1, 2, 3] : List jbyte).length),
             Event.alloca (byteCount ([9, 8] : List jbyte).length),
             Event.alloca (byteCount 4), Event.newByteArray 4]
      ∧ (∀ e ∈ out.trace.take 6, e.movesBytes = false)
      ∧ ((NewByteArray fullEnv 4).2 = none →
          out.ret = none ∧ out.env = fullEnv
          ∧ out.trace
              = [Event.getArrayLength 0, Event.getArrayLength 1,
                 Event.alloca (byteCount ([1, 2, 3] : List jbyte).length),
                 Event.alloca (byteCount ([9, 8] : List jbyte).length),
                 Event.alloca (byteCount 4), Event.newByteArray 4])
      ∧ (groundAvail < 18446744071562067968 → (0 : Int) ≤ 4) :=
  scrypt_null_before_any_copy groundScrypt groundStack groundAvail fullEnv 0 1 16 1 1 4
    [1, 2, 3] [9, 8]
    ⟨by decide, by decide, by decide, by decide, by decide, by decide, by decide, by decide,
      by decide⟩

end EdgeCoreJni
